import Mathlib

/-!
Verification development for the Amari mathematical computation engine.

The repository ships a demonstration client (`src/examples/client_examples.py`)
whose example calls, together with the design specification, describe the
computation engine: geometric (Clifford) algebra over a signature (p, q, r),
min-plus tropical matrix algebra with shortest paths, forward-mode automatic
differentiation over an expression AST, cellular-automaton evolution, and the
batch / wire boundaries. The engine implementation itself is not part of the
repository, so the engine operations below are modelled from the specification;
the concrete request payloads and the client stub are embedded from the source
file directly.
-/

namespace Amari

/-- Error taxonomy of the engine (spec §7). -/
inductive EngineError where
  | shapeError
  | domainError
  | syntaxError
  | negativeCycleError
  | unknownFamilyError
  | notFoundError
deriving DecidableEq

/-! ## Tropical semiring engine (spec §4.2)

Extended values of the min-plus semiring are `Option α` with `none` playing
+∞ (the ⊕-identity and the ⊗-annihilator). -/

/-- A tropical (extended) value: `none` is +∞. -/
abbrev Trop (α : Type) := Option α

/-- Modelled from the spec: the Tropical Semiring Engine is absent from `src/`
(only the example client is present); tropical ⊕ = min, with +∞ as identity. -/
def tropAdd {α : Type} [LinearOrder α] : Trop α → Trop α → Trop α
  | none, y => y
  | some a, none => some a
  | some a, some b => some (min a b)

/-- Modelled from the spec: tropical ⊗ = +; any +∞ operand annihilates the
term (never a numeric overflow). -/
def tropMul {α : Type} [Add α] : Trop α → Trop α → Trop α
  | none, _ => none
  | some _, none => none
  | some a, some b => some (a + b)

/-- The order of the min-plus semiring with `none` as the top element +∞. -/
def tropLe {α : Type} [LE α] : Trop α → Trop α → Prop
  | _, none => True
  | none, some _ => False
  | some a, some b => a ≤ b

/-- Strict order on tropical values (used for the negative-cycle check). -/
def tropLtB {α : Type} [LinearOrder α] : Trop α → Trop α → Bool
  | none, _ => false
  | some _, none => true
  | some a, some b => a < b

/-- A tropical matrix is a rectangular list of rows of extended values. -/
abbrev TropMatrix (α : Type) := List (List (Trop α))

/-- Number of rows. -/
def rowsOf {α : Type} (A : TropMatrix α) : Nat := A.length

/-- Number of columns (length of the first row). -/
def colsOf {α : Type} (A : TropMatrix α) : Nat := (A.headD []).length

/-- Every row has the common column count. -/
def Rectangular {α : Type} (A : TropMatrix α) : Prop :=
  ∀ row ∈ A, row.length = colsOf A

instance {α : Type} (A : TropMatrix α) : Decidable (Rectangular A) :=
  List.decidableBAll _ A

/-- Entry `(i, j)` of a tropical matrix, +∞ out of bounds. -/
def entryOf {α : Type} (A : TropMatrix α) (i j : Nat) : Trop α :=
  (A.getD i []).getD j none

/-- Tropical dot product `⊕_k (u_k ⊗ v_k)` of two vectors. -/
def tropDot {α : Type} [LinearOrder α] [Add α] (u v : List (Trop α)) : Trop α :=
  (List.zipWith tropMul u v).foldr tropAdd none

/-- Column `j` of a tropical matrix. -/
def columnOf {α : Type} (B : TropMatrix α) (j : Nat) : List (Trop α) :=
  B.map (fun row => row.getD j none)

/-- Raw tropical matrix product (dimensions assumed compatible). -/
def tropMulMat {α : Type} [LinearOrder α] [Add α] (A B : TropMatrix α) : TropMatrix α :=
  A.map (fun row => (List.range (colsOf B)).map (fun j => tropDot row (columnOf B j)))

/-- Modelled from the spec: `tropical_matrix_multiply(A, B)` is absent from
`src/`; requires `A.cols == B.rows`, failing with `ShapeError` otherwise, and
returns the min-plus product. -/
def tropical_matrix_multiply {α : Type} [LinearOrder α] [Add α] (A B : TropMatrix α) :
    Except EngineError (TropMatrix α) :=
  if colsOf A = rowsOf B then .ok (tropMulMat A B) else .error .shapeError

/-- The list of ⊗-terms whose ⊕ (minimum) is entry `(i, j)` of the product. -/
def prodTerms {α : Type} [Add α] (A B : TropMatrix α) (i j : Nat) : List (Trop α) :=
  (List.range (colsOf A)).map (fun k => tropMul (entryOf A i k) (entryOf B k j))

/-- The specified behaviour of `tropical_matrix_multiply`: shape checking, and
every defined entry is the minimum over `k` of `A[i,k] ⊗ B[k,j]` (lower bound
of all terms and attained by one of them unless all are +∞). -/
def TMMSpec {α : Type} [LinearOrder α] [Add α] (A B : TropMatrix α) : Prop :=
  (colsOf A ≠ rowsOf B → tropical_matrix_multiply A B = .error .shapeError) ∧
  (colsOf A = rowsOf B →
    ∃ C, tropical_matrix_multiply A B = .ok C ∧
      rowsOf C = rowsOf A ∧
      ∀ i j, i < rowsOf A → j < colsOf B →
        entryOf C i j = (prodTerms A B i j).foldr tropAdd none ∧
        (∀ k, k < colsOf A → tropLe (entryOf C i j) (tropMul (entryOf A i k) (entryOf B k j))) ∧
        (entryOf C i j = none ∨
          ∃ k, k < colsOf A ∧ entryOf C i j = tropMul (entryOf A i k) (entryOf B k j)))

/-! ## Tropical closure and shortest paths (spec §4.2) -/

/-- Pure repeated tropical self-multiplication: `fuel` products with `A`. -/
def tropIterMul {α : Type} [LinearOrder α] [Add α] (A : TropMatrix α) :
    Nat → TropMatrix α → TropMatrix α
  | 0, D => D
  | fuel + 1, D => tropIterMul A fuel (tropMulMat D A)

/-- Modelled from the spec: the closure loop of `shortest_path`, with early
stop once `D` no longer changes. -/
def tropCloseAux {α : Type} [LinearOrder α] [Add α] [DecidableEq α] (A : TropMatrix α) :
    Nat → TropMatrix α → TropMatrix α
  | 0, D => D
  | fuel + 1, D =>
      if tropMulMat D A = D then D else tropCloseAux A fuel (tropMulMat D A)

/-- Modelled from the spec: the path-reconstruction bookkeeping of
`shortest_path`: for each `(i, j)`, the minimizing intermediate index `k` of
the final tropical multiplication (first such index). -/
def predMatrix {α : Type} [LinearOrder α] [Add α] [DecidableEq α]
    (D A : TropMatrix α) : List (List Nat) :=
  (List.range (rowsOf A)).map (fun i =>
    (List.range (rowsOf A)).map (fun j =>
      (prodTerms D A i j).findIdx (fun t => t = (prodTerms D A i j).foldr tropAdd none)))

/-- Backtracking from the target through the predecessor matrix. -/
def buildPath (P : List (List Nat)) (source : Nat) : Nat → Nat → List Nat
  | 0, j => [j]
  | fuel + 1, j =>
      if j = source then [source]
      else buildPath P source fuel ((P.getD source []).getD j j) ++ [j]

/-- Modelled from the spec: `shortest_path` is absent from `src/`. Treats the
matrix as edge weights, computes the tropical closure `D_1 = A`,
`D_{m+1} = D_m ⊗ A` stopping early on a fixpoint or after `n−1` iterations,
rejects negative cycles (strictly decreasing diagonal after closure) with
`NegativeCycleError`, and returns `D[source][target]` together with the
backtracked path. -/
def shortest_path {α : Type} [LinearOrder α] [Add α] [DecidableEq α]
    (A : TropMatrix α) (source target : Nat) :
    Except EngineError (Trop α × List Nat) :=
  if (List.range (rowsOf A)).any (fun i =>
      tropLtB (entryOf (tropMulMat (tropCloseAux A (rowsOf A - 2) A) A) i i)
        (entryOf (tropCloseAux A (rowsOf A - 2) A) i i)) then
    .error .negativeCycleError
  else
    .ok (entryOf (tropCloseAux A (rowsOf A - 2) A) source target,
      buildPath (predMatrix (tropCloseAux A (rowsOf A - 2) A) A) source
        (rowsOf A) target)

/-- The 4-node example graph of the spec and the client request
(`[[0,2,∞,1],[∞,0,3,2],[∞,∞,0,1],[∞,∞,∞,0]]`), with integer weights. -/
def exampleGraph : TropMatrix ℤ :=
  [[some 0, some 2, none, some 1],
   [none, some 0, some 3, some 2],
   [none, none, some 0, some 1],
   [none, none, none, some 0]]

/-! ## Multivector algebra engine (spec §4.1)

Blades are bitmasks over the `n = p + q + r` generators; a multivector over a
signature is one coefficient per blade. The blade-product sign is derived, as
the spec prescribes, from the transposition count that sorts the concatenated
generator-index lists, times the metric value of every contracted generator. -/

/-- An algebra signature: counts of generators squaring to +1, −1, 0. -/
structure Signature where
  p : Nat
  q : Nat
  r : Nat
deriving DecidableEq

/-- Total number of generators. -/
def Signature.n (s : Signature) : Nat := s.p + s.q + s.r

/-- Metric value of generator `g` (0-indexed): +1 for the first `p`, −1 for
the next `q`, 0 for the degenerate rest. -/
def metricOf (s : Signature) (g : Nat) : Int :=
  if g < s.p then 1 else if g < s.p + s.q then -1 else 0

/-- Ascending generator-index list of a blade bitmask. -/
def bladeIndices (n m : Nat) : List Nat :=
  (List.range n).filter (fun b => m.testBit b)

/-- Number of inversions of a list: the transposition count that sorts it. -/
def inversions : List Nat → Nat
  | [] => 0
  | a :: l => l.countP (fun b => b < a) + inversions l

/-- Sign-and-metric factor of the blade product `i ⊗ j` (spec §4.1): parity of
the transpositions sorting the concatenated index lists, times the metric of
every generator contracted (present in both blades). -/
def bladeFactor (s : Signature) (i j : Nat) : Int :=
  (-1 : Int) ^ inversions (bladeIndices s.n i ++ bladeIndices s.n j) *
    ((bladeIndices s.n i).filter (fun g => g ∈ bladeIndices s.n j)).foldr
      (fun g acc => metricOf s g * acc) 1

/-- A multivector over a signature: one coefficient per blade bitmask. -/
def GeomMv (s : Signature) (α : Type) := Fin (2 ^ s.n) → α

/-- Modelled from the spec: `geometric_product(a, b, signature)` is absent
from `src/`. Every pair of blades contributes `bladeFactor` times the two
coefficients to the output blade `i xor j`. -/
def geometric_product {α : Type} [Ring α] (s : Signature) (a b : GeomMv s α) :
    GeomMv s α :=
  fun k => ∑ i : Fin (2 ^ s.n), ∑ j : Fin (2 ^ s.n),
    if i.val ^^^ j.val = k.val then (bladeFactor s i.val j.val : α) * a i * b j else 0

/-- The basis vector `e_g` as a multivector (coefficient 1 on blade `2^g`). -/
def basisVec {α : Type} [Ring α] (s : Signature) (g : Nat) : GeomMv s α :=
  fun k => if k.val = 2 ^ g then 1 else 0

/-- A scalar multivector. -/
def scalarMv {α : Type} [Ring α] (s : Signature) (c : α) : GeomMv s α :=
  fun k => if k.val = 0 then c else 0

/-- Grade (number of generators) of a blade bitmask. -/
def gradeOf (n m : Nat) : Nat := (bladeIndices n m).length

/-- Reversion: sign `(-1)^(k(k-1)/2)` on each grade-`k` blade (spec §4.1). -/
def reverseMv {α : Type} [Ring α] (s : Signature) (a : GeomMv s α) : GeomMv s α :=
  fun k => (-1 : α) ^ (gradeOf s.n k.val * (gradeOf s.n k.val - 1) / 2) * a k

/-- Modelled from the spec: `create(coefficients, signature)` is absent from
`src/`; validates `len(coefficients) == 2^(p+q+r)`, failing with `ShapeError`
otherwise, and returns the multivector. -/
def create {α : Type} (coefficients : List α) (s : Signature) :
    Except EngineError (List α) :=
  if coefficients.length = 2 ^ s.n then .ok coefficients else .error .shapeError

/-- Matrices of the `tropical_matrix_multiply` example request in
`src/examples/client_examples.py` (lines 61-72), with integer weights. -/
def exMatrixA : TropMatrix ℤ :=
  [[some 0, some 3, none], [some 2, some 0, some 1], [none, some 4, some 0]]

/-- Second matrix of the `tropical_matrix_multiply` example request. -/
def exMatrixB : TropMatrix ℤ :=
  [[some 0, some 1], [some 2, some 0], [some 3, some 2]]

/-! ## Batch boundary (spec §6), client stub, and wire encodings -/

/-- Modelled from the spec: the batch boundary `batch_apply` is absent from
`src/` (only the `gpu_batch_compute` caller exists); applies one operation
independently to each parameter set, capturing each failure per item. -/
def batch_apply {P R : Type} (op : P → Except EngineError R) (items : List P) :
    List (Except EngineError R) :=
  items.map op

/-- The response value of the `MCPClient.call_tool` stub. -/
structure ToolResponse where
  success : Bool
  result : String
deriving DecidableEq

/-- The `MCPClient.call_tool` stub from `src/examples/client_examples.py`
(lines 18-21): returns `{"success": True, "result": "placeholder"}` whatever
the arguments (the `print` side effect is elided in this pure embedding). -/
def MCPClient.call_tool {P : Type} (tool_name : String) (params : P) : ToolResponse :=
  { success := true, result := "placeholder" }

/-- A wire-encoded matrix entry as the example requests spell it: a finite
number, the IEEE infinity `float('inf')`, or Python `None` (JSON null). -/
inductive WireValue where
  | num : ℚ → WireValue
  | inf : WireValue
  | null : WireValue
deriving DecidableEq

/-- The `matrix_a` literal of the `tropical_matrix_multiply` request
(`src/examples/client_examples.py` lines 62-66). -/
def wireMatrixA : List (List WireValue) :=
  [[.num 0, .num 3, .inf], [.num 2, .num 0, .num 1], [.inf, .num 4, .num 0]]

/-- The `adjacency_matrix` literal of the `shortest_path` request
(`src/examples/client_examples.py` lines 78-83). -/
def wireGraph : List (List WireValue) :=
  [[.num 0, .num 2, .null, .num 1],
   [.null, .num 0, .num 3, .num 2],
   [.null, .null, .num 0, .num 1],
   [.null, .null, .null, .num 0]]

/-- The eight multivector coefficients of the `create_multivector` example
request (`src/examples/client_examples.py` lines 30-33). -/
def exCoefficients : List ℚ :=
  [1, 1/2, 3/10, 1/5, 1/10, 3/20, 1/4, 1/20]

/-! ## Cellular automaton engine (spec §4.4) -/

/-- Toroidal wrap of coordinate `x + d` on an axis of extent `W`. -/
def wrapCoord (W : Nat) (x : Nat) (d : Int) : Nat :=
  (((x : Int) + d) % (W : Int) + W).toNat % W

/-- Modelled from the spec: one CA transition step over a row-major `W×H`
grid; each cell is replaced by `rule(cell, neighbors)` where the neighborhood
offsets wrap toroidally at the edges. -/
def step {C : Type} (W H : Nat) (neigh : List (Int × Int))
    (rule : C → List C → C) (dflt : C) (cells : List C) : List C :=
  (List.range (W * H)).map (fun idx =>
    rule (cells.getD idx dflt)
      (neigh.map (fun d =>
        cells.getD (wrapCoord H (idx / W) d.2 * W + wrapCoord W (idx % W) d.1) dflt)))

/-- Modelled from the spec: `evolve(initial_state, rule, steps)` is absent
from `src/`; applies `step` exactly `steps` times and returns only the final
grid. -/
def evolve {C : Type} (W H : Nat) (neigh : List (Int × Int))
    (rule : C → List C → C) (dflt : C) : Nat → List C → List C
  | 0, g => g
  | n + 1, g => evolve W H neigh rule dflt n (step W H neigh rule dflt g)

/-- Modelled from the spec: the reference "geometric" CA rule — the cell's
geometric product with the arithmetic mean of its neighbors. -/
def geometricRule {α : Type} [Field α] (s : Signature) (cell : GeomMv s α)
    (neighbors : List (GeomMv s α)) : GeomMv s α :=
  geometric_product s cell
    (fun k => (neighbors.map (fun nb => nb k)).sum / (neighbors.length : α))

/-! ## Autodiff engine (spec §4.3)

The expression AST and a forward-mode evaluator returning, in one bottom-up
traversal, the value together with the full gradient vector indexed by the
declared variables. The transcendental functions are parameters so that the
evaluator stays a plain recursive function; the theorems instantiate them with
the real `sin`, `cos`, `exp`, `log`. -/

/-- The transcendental operations of the evaluation field. -/
structure TransOps (α : Type) where
  sinF : α → α
  cosF : α → α
  expF : α → α
  logF : α → α

/-- The expression AST (spec §3): `Pow` carries a constant natural exponent,
as in the differentiation rule `Pow(f, constant-n)`. -/
inductive Expr (α : Type) where
  | const : α → Expr α
  | var : String → Expr α
  | add : Expr α → Expr α → Expr α
  | sub : Expr α → Expr α → Expr α
  | mul : Expr α → Expr α → Expr α
  | div : Expr α → Expr α → Expr α
  | pow : Expr α → Nat → Expr α
  | sin : Expr α → Expr α
  | cos : Expr α → Expr α
  | exp : Expr α → Expr α
  | log : Expr α → Expr α

/-- Modelled from the spec: the forward-mode core of `compute_gradient`,
absent from `src/`. Each node produces its value and gradient vector in a
single bottom-up traversal; division by zero and `log` of a non-positive
value fail with `DomainError`, an undeclared variable with `SyntaxError`. -/
def evalGrad {α : Type} [Field α] [LinearOrder α] (ops : TransOps α)
    (vars : List String) (vals : List α) : Expr α → Except EngineError (α × List α)
  | .const c => .ok (c, vars.map fun _ => 0)
  | .var x =>
      match vars.findIdx? (fun v => v = x) with
      | some idx =>
          .ok (vals.getD idx 0, (List.range vars.length).map fun i => if i = idx then 1 else 0)
      | none => .error .syntaxError
  | .add f g =>
      match evalGrad ops vars vals f, evalGrad ops vars vals g with
      | .ok (fv, fg), .ok (gv, gg) => .ok (fv + gv, List.zipWith (fun a b => a + b) fg gg)
      | .error e, _ => .error e
      | _, .error e => .error e
  | .sub f g =>
      match evalGrad ops vars vals f, evalGrad ops vars vals g with
      | .ok (fv, fg), .ok (gv, gg) => .ok (fv - gv, List.zipWith (fun a b => a - b) fg gg)
      | .error e, _ => .error e
      | _, .error e => .error e
  | .mul f g =>
      match evalGrad ops vars vals f, evalGrad ops vars vals g with
      | .ok (fv, fg), .ok (gv, gg) =>
          .ok (fv * gv, List.zipWith (fun df dg => fv * dg + gv * df) fg gg)
      | .error e, _ => .error e
      | _, .error e => .error e
  | .div f g =>
      match evalGrad ops vars vals f, evalGrad ops vars vals g with
      | .ok (fv, fg), .ok (gv, gg) =>
          if gv = 0 then .error .domainError
          else .ok (fv / gv,
            List.zipWith (fun df dg => (df * gv - fv * dg) / (gv * gv)) fg gg)
      | .error e, _ => .error e
      | _, .error e => .error e
  | .pow f n =>
      match evalGrad ops vars vals f with
      | .ok (fv, fg) => .ok (fv ^ n, fg.map fun df => (n : α) * fv ^ (n - 1) * df)
      | .error e => .error e
  | .sin f =>
      match evalGrad ops vars vals f with
      | .ok (fv, fg) => .ok (ops.sinF fv, fg.map fun df => ops.cosF fv * df)
      | .error e => .error e
  | .cos f =>
      match evalGrad ops vars vals f with
      | .ok (fv, fg) => .ok (ops.cosF fv, fg.map fun df => -(ops.sinF fv) * df)
      | .error e => .error e
  | .exp f =>
      match evalGrad ops vars vals f with
      | .ok (fv, fg) => .ok (ops.expF fv, fg.map fun df => ops.expF fv * df)
      | .error e => .error e
  | .log f =>
      match evalGrad ops vars vals f with
      | .ok (fv, fg) =>
          if fv ≤ 0 then .error .domainError
          else .ok (ops.logF fv, fg.map fun df => df / fv)
      | .error e => .error e

/-- Modelled from the spec: `compute_gradient` returns the gradient component
of the single forward-mode traversal. -/
def compute_gradient {α : Type} [Field α] [LinearOrder α] (ops : TransOps α)
    (e : Expr α) (vars : List String) (vals : List α) :
    Except EngineError (List α) :=
  (evalGrad ops vars vals e).map Prod.snd

/-- The AST of the example expression `x^2 * y + sin(x)`. -/
def exampleExpr {α : Type} : Expr α :=
  .add (.mul (.pow (.var "x") 2) (.var "y")) (.sin (.var "x"))

/-! ## Rotor rotation (spec §4.1), 3-generator Euclidean case -/

/-- The 3D Euclidean signature used by `rotor_rotation`. -/
def sig3 : Signature := ⟨3, 0, 0⟩

/-- The blade-product signs of `sig3`, tabulated. -/
def signT8 : Fin 8 → Fin 8 → Int
  | 0, 0 => 1
  | 0, 1 => 1
  | 0, 2 => 1
  | 0, 3 => 1
  | 0, 4 => 1
  | 0, 5 => 1
  | 0, 6 => 1
  | 0, 7 => 1
  | 1, 0 => 1
  | 1, 1 => 1
  | 1, 2 => 1
  | 1, 3 => 1
  | 1, 4 => 1
  | 1, 5 => 1
  | 1, 6 => 1
  | 1, 7 => 1
  | 2, 0 => 1
  | 2, 1 => -1
  | 2, 2 => 1
  | 2, 3 => -1
  | 2, 4 => 1
  | 2, 5 => -1
  | 2, 6 => 1
  | 2, 7 => -1
  | 3, 0 => 1
  | 3, 1 => -1
  | 3, 2 => 1
  | 3, 3 => -1
  | 3, 4 => 1
  | 3, 5 => -1
  | 3, 6 => 1
  | 3, 7 => -1
  | 4, 0 => 1
  | 4, 1 => -1
  | 4, 2 => -1
  | 4, 3 => 1
  | 4, 4 => 1
  | 4, 5 => -1
  | 4, 6 => -1
  | 4, 7 => 1
  | 5, 0 => 1
  | 5, 1 => -1
  | 5, 2 => -1
  | 5, 3 => 1
  | 5, 4 => 1
  | 5, 5 => -1
  | 5, 6 => -1
  | 5, 7 => 1
  | 6, 0 => 1
  | 6, 1 => 1
  | 6, 2 => -1
  | 6, 3 => -1
  | 6, 4 => 1
  | 6, 5 => 1
  | 6, 6 => -1
  | 6, 7 => -1
  | 7, 0 => 1
  | 7, 1 => 1
  | 7, 2 => -1
  | 7, 3 => -1
  | 7, 4 => 1
  | 7, 5 => 1
  | 7, 6 => -1
  | 7, 7 => -1

/-- Reversion signs `(-1)^(k(k-1)/2)` per blade of `sig3`, tabulated. -/
def revSignT8 : Fin 8 → Int
  | 0 => 1
  | 1 => 1
  | 2 => 1
  | 3 => -1
  | 4 => 1
  | 5 => -1
  | 6 => -1
  | 7 => -1

/-- The Hodge dual of a 3-vector: `b ↦ b₀ e₂₃ − b₁ e₁₃ + b₂ e₁₂` (spec §4.1). -/
def hodgeDual3 {α : Type} [Ring α] (b : Fin 3 → α) : GeomMv sig3 α :=
  fun k =>
    if k.val = 6 then b 0 else if k.val = 5 then -(b 1) else if k.val = 3 then b 2 else 0

/-- The rotor `R = c·1 − s·B` with `B` the dual bivector of the axis. -/
def rotorOf {α : Type} [Ring α] (c s : α) (b : Fin 3 → α) : GeomMv sig3 α :=
  fun k => (if k.val = 0 then c else 0) - s * hodgeDual3 b k

/-- A 3-vector as a grade-1 multivector. -/
def embedVec {α : Type} [Ring α] (v : Fin 3 → α) : GeomMv sig3 α :=
  fun k =>
    if k.val = 1 then v 0 else if k.val = 2 then v 1 else if k.val = 4 then v 2 else 0

/-- Blade masks of the three grade-1 components. -/
def vecMask (i : Fin 3) : Fin (2 ^ sig3.n) :=
  if i.val = 0 then ⟨1, by decide⟩ else if i.val = 1 then ⟨2, by decide⟩ else ⟨4, by decide⟩

/-- The grade-1 part of the sandwich `R ⊗ v ⊗ reverse R` (spec §4.1). -/
def rotApply {α : Type} [Ring α] (c s : α) (b v : Fin 3 → α) : Fin 3 → α :=
  fun i =>
    geometric_product sig3
      (geometric_product sig3 (rotorOf c s b) (embedVec v))
      (reverseMv sig3 (rotorOf c s b)) (vecMask i)

/-- Modelled from the spec: `rotor_rotation(vector, axis, angle)` is absent
from `src/`; the spec defines the construction for 3 Euclidean generators.
Rejects a zero axis with `DomainError`, normalizes the axis, builds the rotor
from the half angle and applies the sandwich, returning the grade-1 part. The
trigonometric and square-root functions are parameters, instantiated with the
real ones in the theorems. -/
def rotor_rotation {α : Type} [Field α] [LinearOrder α]
    (cosF sinF sqrtF : α → α) (axis : Fin 3 → α) (angle : α) (v : Fin 3 → α) :
    Except EngineError (Fin 3 → α) :=
  if axis 0 = 0 ∧ axis 1 = 0 ∧ axis 2 = 0 then .error .domainError
  else
    .ok (rotApply (cosF (angle / 2)) (sinF (angle / 2))
      (fun i => axis i / sqrtF (axis 0 ^ 2 + axis 1 ^ 2 + axis 2 ^ 2)) v)

/-- Explicit form of `R ⊗ v` over `sig3`. -/
def rvFormula {α : Type} [Ring α] (c s : α) (b v : Fin 3 → α) : Fin 8 → α
  | 0 => 0
  | 1 => -s * b 2 * v 1 + s * b 1 * v 2 + c * v 0
  | 2 => s * b 2 * v 0 - s * b 0 * v 2 + c * v 1
  | 3 => 0
  | 4 => -s * b 1 * v 0 + s * b 0 * v 1 + c * v 2
  | 5 => 0
  | 6 => 0
  | 7 => -s * b 2 * v 2 - s * b 1 * v 1 - s * b 0 * v 0

/-- Explicit grade-1 components of the full sandwich over `sig3`. -/
def sandFormula {α : Type} [Ring α] (c s : α) (b v : Fin 3 → α) : Fin 3 → α
  | 0 => -s * s * b 2 * b 2 * v 0 - s * s * b 1 * b 1 * v 0 + 2 * s * s * b 0 * b 2 * v 2 + 2 * s * s * b 0 * b 1 * v 1 + s * s * b 0 * b 0 * v 0 - 2 * c * s * b 2 * v 1 + 2 * c * s * b 1 * v 2 + c * c * v 0
  | 1 => -s * s * b 2 * b 2 * v 1 + 2 * s * s * b 1 * b 2 * v 2 + s * s * b 1 * b 1 * v 1 + 2 * s * s * b 0 * b 1 * v 0 - s * s * b 0 * b 0 * v 1 + 2 * c * s * b 2 * v 0 - 2 * c * s * b 0 * v 2 + c * c * v 1
  | 2 => s * s * b 2 * b 2 * v 2 + 2 * s * s * b 1 * b 2 * v 1 - s * s * b 1 * b 1 * v 2 + 2 * s * s * b 0 * b 2 * v 0 - s * s * b 0 * b 0 * v 2 - 2 * c * s * b 1 * v 0 + 2 * c * s * b 0 * v 1 + c * c * v 2

/-! ## Lemmas and claim theorems -/

lemma tropLe_trans {α : Type} [Preorder α] :
    ∀ {x y z : Trop α}, tropLe x y → tropLe y z → tropLe x z
  | none, _, none, _, _ => trivial
  | some _, _, none, _, _ => trivial
  | none, none, some _, _, h => h.elim
  | some _, none, some _, _, h => h.elim
  | none, some _, some _, h, _ => h.elim
  | some _, some _, some _, h1, h2 => le_trans h1 h2

lemma tropAdd_le_left {α : Type} [LinearOrder α] :
    ∀ x y : Trop α, tropLe (tropAdd x y) x
  | none, none => trivial
  | none, some _ => trivial
  | some _, none => le_refl _
  | some _, some _ => min_le_left _ _

lemma tropAdd_le_right {α : Type} [LinearOrder α] :
    ∀ x y : Trop α, tropLe (tropAdd x y) y
  | none, none => trivial
  | none, some _ => le_refl _
  | some _, none => trivial
  | some _, some _ => min_le_right _ _

lemma tropAdd_eq_or {α : Type} [LinearOrder α] :
    ∀ x y : Trop α, tropAdd x y = x ∨ tropAdd x y = y
  | none, none => Or.inl rfl
  | none, some _ => Or.inr rfl
  | some _, none => Or.inl rfl
  | some a, some b => by
      rcases min_choice a b with h | h
      · exact Or.inl (by simpa [tropAdd] using congrArg some h)
      · exact Or.inr (by simpa [tropAdd] using congrArg some h)

/-- The ⊕-fold of a list is a lower bound of its elements. -/
lemma foldr_tropAdd_le {α : Type} [LinearOrder α] (l : List (Trop α)) :
    ∀ x ∈ l, tropLe (l.foldr tropAdd none) x := by
  induction l with
  | nil => intro x hx; cases hx
  | cons a t ih =>
      intro x hx
      rcases List.mem_cons.mp hx with h | h
      · subst h; exact tropAdd_le_left _ _
      · exact tropLe_trans (tropAdd_le_right a _) (ih x h)

/-- The ⊕-fold of a list is +∞ or one of its elements. -/
lemma foldr_tropAdd_mem {α : Type} [LinearOrder α] (l : List (Trop α)) :
    l.foldr tropAdd none = none ∨ l.foldr tropAdd none ∈ l := by
  induction l with
  | nil => exact Or.inl rfl
  | cons a t ih =>
      rcases tropAdd_eq_or a (t.foldr tropAdd none) with h | h
      · exact Or.inr (by rw [List.foldr_cons, h]; exact List.mem_cons_self a t)
      · rcases ih with h' | h'
        · exact Or.inl (by rw [List.foldr_cons, h, h'])
        · exact Or.inr (by rw [List.foldr_cons, h]; exact List.mem_cons_of_mem a h')

lemma getD_map_of_lt {α β : Type} (f : α → β) (d : β) (d' : α) :
    ∀ (l : List α) (i : Nat), i < l.length → (l.map f).getD i d = f (l.getD i d')
  | [], i, h => absurd h (by simp)
  | a :: t, 0, _ => rfl
  | a :: t, i + 1, h =>
      getD_map_of_lt f d d' t i (by simpa using Nat.lt_of_succ_lt_succ h)

lemma getD_range_of_lt (d : Nat) :
    ∀ (K i : Nat), i < K → (List.range K).getD i d = i := by
  intro K
  induction K with
  | zero => intro i h; cases h
  | succ n ih =>
      intro i h
      rw [List.range_succ]
      rcases Nat.lt_or_ge i n with h' | h'
      · rw [List.getD_append _ _ _ _ (by simpa using h')]
        exact ih i h'
      · have hi : i = n := Nat.le_antisymm (Nat.lt_succ_iff.mp h) h'
        subst hi
        rw [List.getD_eq_getElem?_getD, List.getElem?_append_right (by simp)]
        simp

/-- The tropical dot product, written as a fold over indexed ⊗-terms. -/
lemma tropDot_eq_terms {α : Type} [LinearOrder α] [Add α] :
    ∀ (u v : List (Trop α)), u.length = v.length →
      tropDot u v =
        ((List.range u.length).map
          (fun k => tropMul (u.getD k none) (v.getD k none))).foldr tropAdd none
  | [], [], _ => rfl
  | [], b :: v, h => by simp at h
  | a :: u, [], h => by simp at h
  | a :: u, b :: v, h => by
      have hlen : u.length = v.length := by simpa using h
      have ih := tropDot_eq_terms u v hlen
      simp only [tropDot] at ih ⊢
      simp only [List.getD_eq_getElem?_getD] at ih
      simp [List.range_succ_eq_map, List.map_map, Function.comp_def, List.getD_eq_getElem?_getD,
        List.getElem?_cons_succ, List.getElem?_cons_zero, ih]

/-- Entry `(i,j)` of the product is the ⊕-fold (minimum) of the ⊗-terms. -/
lemma entry_tropMulMat {α : Type} [LinearOrder α] [Add α] (A B : TropMatrix α)
    (hA : Rectangular A) (h : colsOf A = rowsOf B) {i j : Nat}
    (hi : i < rowsOf A) (hj : j < colsOf B) :
    entryOf (tropMulMat A B) i j = (prodTerms A B i j).foldr tropAdd none := by
  have hmem : A.getD i [] ∈ A := by
    rw [List.getD_eq_getElem?_getD, List.getElem?_eq_getElem hi]
    simp [List.getElem_mem]
  have hrow : (A.getD i []).length = colsOf A := hA _ hmem
  unfold entryOf tropMulMat
  rw [getD_map_of_lt _ [] [] A i hi]
  rw [getD_map_of_lt _ none 0 (List.range (colsOf B)) j (by simpa using hj)]
  rw [getD_range_of_lt 0 _ j hj]
  have hcol : (columnOf B j).length = rowsOf B := by simp [columnOf, rowsOf]
  have hlen : (A.getD i []).length = (columnOf B j).length := by rw [hrow, hcol, h]
  rw [tropDot_eq_terms _ _ hlen, hrow]
  unfold prodTerms
  congr 1
  apply List.map_congr_left
  intro k hk
  have hk' : k < rowsOf B := by rw [← h]; exact List.mem_range.mp hk
  have h2 : (columnOf B j).getD k none = entryOf B k j := by
    unfold columnOf entryOf
    exact getD_map_of_lt _ none [] B k hk'
  rw [h2]
  rfl

/-- If `D` is a fixpoint of `· ⊗ A`, iterating leaves it unchanged. -/
lemma tropIterMul_fix {α : Type} [LinearOrder α] [Add α] (A D : TropMatrix α)
    (h : tropMulMat D A = D) : ∀ fuel, tropIterMul A fuel D = D := by
  intro fuel
  induction fuel with
  | zero => rfl
  | succ f ih =>
      simp only [tropIterMul]
      rw [h]
      exact ih

/-- Early stopping does not change the computed closure. -/
lemma tropCloseAux_eq_iter {α : Type} [LinearOrder α] [Add α] [DecidableEq α]
    (A : TropMatrix α) : ∀ fuel D, tropCloseAux A fuel D = tropIterMul A fuel D := by
  intro fuel
  induction fuel with
  | zero => intro D; rfl
  | succ f ih =>
      intro D
      simp only [tropCloseAux, tropIterMul]
      by_cases hD : tropMulMat D A = D
      · rw [if_pos hD, hD, tropIterMul_fix A D hD f]
      · rw [if_neg hD]
        exact ih (tropMulMat D A)

lemma filter_range_eq_single :
    ∀ n g : Nat, g < n → (List.range n).filter (fun b => decide (g = b)) = [g] := by
  intro n
  induction n with
  | zero => intro g h; cases h
  | succ n ih =>
      intro g h
      rw [List.range_succ, List.filter_append]
      rcases Nat.lt_or_ge g n with h' | h'
      · rw [ih g h']
        have : ¬ g = n := Nat.ne_of_lt h'
        simp [this]
      · have hg : g = n := Nat.le_antisymm (Nat.lt_succ_iff.mp h) h'
        subst hg
        have hnil : (List.range g).filter (fun b => decide (g = b)) = [] := by
          apply List.filter_eq_nil_iff.mpr
          intro b hb
          have : b < g := List.mem_range.mp hb
          simp [Nat.ne_of_gt this]
        rw [hnil]
        simp

/-- The generator-index list of the single-generator blade `2^g`. -/
lemma bladeIndices_two_pow {n g : Nat} (h : g < n) : bladeIndices n (2 ^ g) = [g] := by
  unfold bladeIndices
  have : (fun b => Nat.testBit (2 ^ g) b) = (fun b => decide (g = b)) := by
    funext b
    exact Nat.testBit_two_pow
  rw [this]
  exact filter_range_eq_single n g h

/-- A zero metric factor annihilates the contraction product. -/
lemma foldr_metric_zero (s : Signature) {g : Nat} (hg : metricOf s g = 0) :
    ∀ l : List Nat, g ∈ l → l.foldr (fun x acc => metricOf s x * acc) 1 = 0 := by
  intro l
  induction l with
  | nil => intro h; cases h
  | cons a t ih =>
      intro h
      rcases List.mem_cons.mp h with h' | h'
      · subst h'
        simp [List.foldr_cons, hg]
      · simp [List.foldr_cons, ih h']

/-- Degenerate generators have metric 0. -/
lemma metricOf_degenerate (s : Signature) {g : Nat} (h : s.p + s.q ≤ g) :
    metricOf s g = 0 := by
  unfold metricOf
  have h1 : ¬ g < s.p := by omega
  have h2 : ¬ g < s.p + s.q := by omega
  simp [h1, h2]

/-- C2: `tropical_matrix_multiply(A, B)` fails with `ShapeError` when
`A.cols ≠ B.rows`, and otherwise returns the matrix whose `(i,j)` entry is the
minimum over `k` of `A[i,k] + B[k,j]`, any +∞ operand annihilating its term. -/
theorem tropical_matrix_multiply_spec {α : Type} [LinearOrder α] [Add α]
    (A B : TropMatrix α) (hA : Rectangular A) : TMMSpec A B := by
  constructor
  · intro hne
    simp [tropical_matrix_multiply, hne]
  · intro h
    refine ⟨tropMulMat A B, by simp [tropical_matrix_multiply, h],
      by simp [tropMulMat, rowsOf], ?_⟩
    intro i j hi hj
    have he := entry_tropMulMat A B hA h hi hj
    refine ⟨he, ?_, ?_⟩
    · intro k hk
      rw [he]
      apply foldr_tropAdd_le
      unfold prodTerms
      exact List.mem_map.mpr ⟨k, List.mem_range.mpr hk, rfl⟩
    · rcases foldr_tropAdd_mem (prodTerms A B i j) with h0 | hm
      · exact Or.inl (by rw [he, h0])
      · unfold prodTerms at hm
        rcases List.mem_map.mp hm with ⟨k, hk, hkeq⟩
        refine Or.inr ⟨k, List.mem_range.mp hk, ?_⟩
        rw [he]
        unfold prodTerms
        exact hkeq.symm

/-- C2 witness: the specification instantiated at the example request's
matrices, the rectangularity hypothesis checked by computation. -/
theorem tropical_matrix_multiply_witness : TMMSpec exMatrixA exMatrixB :=
  tropical_matrix_multiply_spec exMatrixA exMatrixB (by decide)

/-- C3: for every signature and generator index `g`, `e_g ⊗ e_g` is the scalar
+1 when `g` is among the first `p` generators, −1 among the next `q`, and 0
among the degenerate rest; and any blade-product term contracting a degenerate
generator is zeroed. -/
theorem generator_square_metric_spec {α : Type} [Ring α] (s : Signature) (g : Nat) :
    (g < s.n →
      geometric_product s (basisVec s g) (basisVec s g) =
        scalarMv s ((metricOf s g : Int) : α)) ∧
    (∀ i j : Nat, g ∈ bladeIndices s.n i → g ∈ bladeIndices s.n j →
      s.p + s.q ≤ g → bladeFactor s i j = 0) := by
  constructor
  · intro hg
    have hlt : 2 ^ g < 2 ^ s.n := Nat.pow_lt_pow_right (by norm_num) hg
    funext k
    unfold geometric_product
    rw [Finset.sum_eq_single (⟨2 ^ g, hlt⟩ : Fin (2 ^ s.n))]
    rotate_left
    · intro i _ hi
      apply Finset.sum_eq_zero
      intro j _
      have hne : i.val ≠ 2 ^ g := fun hv => hi (Fin.ext hv)
      simp [basisVec, hne]
    · intro hmem
      exact absurd (Finset.mem_univ _) hmem
    rw [Finset.sum_eq_single (⟨2 ^ g, hlt⟩ : Fin (2 ^ s.n))]
    rotate_left
    · intro j _ hj
      have hne : j.val ≠ 2 ^ g := fun hv => hj (Fin.ext hv)
      simp [basisVec, hne]
    · intro hmem
      exact absurd (Finset.mem_univ _) hmem
    have hbf : bladeFactor s (2 ^ g) (2 ^ g) = metricOf s g := by
      unfold bladeFactor
      rw [bladeIndices_two_pow hg]
      simp [inversions, List.countP_cons]
    simp [basisVec, scalarMv, Nat.xor_self, hbf, eq_comm]
  · intro i j hgi hgj hdeg
    unfold bladeFactor
    apply mul_eq_zero_of_right
    exact foldr_metric_zero s (metricOf_degenerate s hdeg) _
      (List.mem_filter.mpr ⟨hgi, decide_eq_true hgj⟩)

/-- C3 witness: the metric square at a Euclidean generator, and a zeroed
degenerate contraction, all hypotheses checked by computation. -/
theorem generator_square_metric_witness :
    (geometric_product (α := ℚ) ⟨3, 0, 0⟩ (basisVec ⟨3, 0, 0⟩ 1)
        (basisVec ⟨3, 0, 0⟩ 1) =
      scalarMv ⟨3, 0, 0⟩ ((metricOf ⟨3, 0, 0⟩ 1 : Int) : ℚ)) ∧
    bladeFactor ⟨1, 1, 1⟩ 4 4 = 0 :=
  ⟨(generator_square_metric_spec (α := ℚ) ⟨3, 0, 0⟩ 1).1 (by decide),
   (generator_square_metric_spec (α := ℚ) ⟨1, 1, 1⟩ 2).2 4 4
     (by decide) (by decide) (by decide)⟩

/-- C1: `shortest_path` computes the tropical closure `D_1 = A`,
`D_{m+1} = D_m ⊗ A` with early stop, agreeing with the unconditional `n−1`-fold
iteration (so the returned distance is `D_{n-1}[source][target]`), and on the
4-node example graph with source 0 and target 2 it returns distance 5 with
path `[0, 1, 2]`. -/
theorem shortest_path_closure_spec :
    (∀ (α : Type) [LinearOrder α] [Add α] [DecidableEq α]
        (A : TropMatrix α) (fuel : Nat) (D : TropMatrix α),
        tropCloseAux A fuel D = tropIterMul A fuel D) ∧
    (∀ (α : Type) [LinearOrder α] [Add α] [DecidableEq α] (A : TropMatrix α)
        (source target : Nat) (dist : Trop α) (path : List Nat),
        shortest_path A source target = .ok (dist, path) →
        dist = entryOf (tropIterMul A (rowsOf A - 2) A) source target) ∧
    shortest_path exampleGraph 0 2 = .ok (some (5 : ℤ), [0, 1, 2]) := by
  refine ⟨?_, ?_, ?_⟩
  · intro α _ _ _ A fuel D
    exact tropCloseAux_eq_iter A fuel D
  · intro α _ _ _ A source target dist path h
    unfold shortest_path at h
    split at h
    · cases h
    · rw [← tropCloseAux_eq_iter]
      exact (congrArg Prod.fst (Except.ok.inj h)).symm
  · rfl

/-- C1 witness: the closure characterisation applied at the example request,
its hypothesis discharged by the example conjunct itself. -/
theorem shortest_path_closure_witness :
    some (5 : ℤ) = entryOf (tropIterMul exampleGraph (rowsOf exampleGraph - 2) exampleGraph) 0 2 :=
  shortest_path_closure_spec.2.1 ℤ exampleGraph 0 2 (some 5) [0, 1, 2]
    shortest_path_closure_spec.2.2

/-- C6: `create(coefficients, signature)` succeeds exactly when the
coefficient count is `2^(p+q+r)`, fails with `ShapeError` otherwise, and
returns the coefficients unchanged. -/
theorem create_multivector_spec {α : Type} (coefficients : List α) (s : Signature) :
    ((∃ mv, create coefficients s = .ok mv) ↔
      coefficients.length = 2 ^ (s.p + s.q + s.r)) ∧
    (coefficients.length ≠ 2 ^ (s.p + s.q + s.r) →
      create coefficients s = .error .shapeError) ∧
    (∀ mv, create coefficients s = .ok mv → mv = coefficients) := by
  refine ⟨⟨?_, ?_⟩, ?_, ?_⟩
  · rintro ⟨mv, hmv⟩
    by_contra h
    simp [create, Signature.n, h] at hmv
  · intro h
    exact ⟨coefficients, by simp [create, Signature.n, h]⟩
  · intro h
    simp [create, Signature.n, h]
  · intro mv hmv
    by_cases h : coefficients.length = 2 ^ (s.p + s.q + s.r)
    · simp [create, Signature.n, h] at hmv
      exact hmv.symm
    · simp [create, Signature.n, h] at hmv

/-- C6 witness: the example request passes the shape validation. -/
theorem create_multivector_witness :
    ∃ mv, create exCoefficients ⟨3, 0, 0⟩ = .ok mv :=
  (create_multivector_spec exCoefficients ⟨3, 0, 0⟩).1.mpr (by decide)

/-- C9: `batch_apply` preserves the input order — position `i` of the output
is exactly the operation applied to position `i` of the input — and one item's
failure surfaces as that item's error record, never as a whole-batch failure
(the result is always a full-length list of per-item `Except` records). -/
theorem batch_apply_spec {P R : Type} (op : P → Except EngineError R)
    (items : List P) :
    (batch_apply op items).length = items.length ∧
    ∀ i : Nat, (batch_apply op items)[i]? = (items[i]?).map op := by
  refine ⟨by simp [batch_apply], ?_⟩
  intro i
  simp [batch_apply]

/-- C10: the client stub `call_tool` returns the constant successful
placeholder response, independent of the tool name and parameters. -/
theorem call_tool_constant_spec :
    ∀ {P P' : Type} (tool_name : String) (params : P) (n' : String) (p' : P'),
      MCPClient.call_tool tool_name params = ⟨true, "placeholder"⟩ ∧
      MCPClient.call_tool tool_name params = MCPClient.call_tool n' p' :=
  fun _ _ _ _ => ⟨rfl, rfl⟩

/-- C8 counterexample: the absent edge 0→2 of the `shortest_path` request is
encoded as `None`/null, which differs from the `float('inf')` encoding that
the `tropical_matrix_multiply` request uses for its infinite entries. -/
theorem shortest_path_wire_encoding_cex :
    (wireGraph.getD 0 []).getD 2 .inf = .null ∧
    WireValue.null ≠ WireValue.inf ∧
    (wireMatrixA.getD 0 []).getD 2 .null = .inf := by
  decide

/-- C8 amended: in the example `shortest_path` request every absent edge is
encoded as `None`/null and `float('inf')` never occurs, every self-loop
diagonal entry is 0, and the `tropical_matrix_multiply` request encodes its
infinite entries as `float('inf')`; each marker is unambiguous (`null` and
`inf` are each distinct from every numeric entry and from one another), but
the two requests do not share one encoding of infinity. -/
theorem wire_encoding_amended_spec :
    ((wireGraph.getD 0 []).getD 2 .inf = .null ∧
     (wireGraph.getD 1 []).getD 0 .inf = .null ∧
     (wireGraph.getD 2 []).getD 0 .inf = .null ∧
     (wireGraph.getD 2 []).getD 1 .inf = .null ∧
     (wireGraph.getD 3 []).getD 0 .inf = .null ∧
     (wireGraph.getD 3 []).getD 1 .inf = .null ∧
     (wireGraph.getD 3 []).getD 2 .inf = .null) ∧
    (∀ row ∈ wireGraph, ∀ v ∈ row, v ≠ .inf) ∧
    ((wireGraph.getD 0 []).getD 0 .inf = .num 0 ∧
     (wireGraph.getD 1 []).getD 1 .inf = .num 0 ∧
     (wireGraph.getD 2 []).getD 2 .inf = .num 0 ∧
     (wireGraph.getD 3 []).getD 3 .inf = .num 0) ∧
    ((wireMatrixA.getD 0 []).getD 2 .null = .inf ∧
     (wireMatrixA.getD 2 []).getD 0 .null = .inf) ∧
    (∀ x : ℚ, WireValue.null ≠ .num x) ∧
    (∀ x : ℚ, WireValue.inf ≠ .num x) ∧
    WireValue.null ≠ .inf := by
  refine ⟨by decide, by decide, by decide, by decide, ?_, ?_, by decide⟩
  · intro x h
    cases h
  · intro x h
    cases h

/-- C7: `evolve` applies `step` exactly `steps` times (it is the `steps`-fold
iterate of `step`, returning only the final grid), and it is deterministic:
equal initial grids, rules and step counts give identical final grids. -/
theorem evolve_spec :
    (∀ (C : Type) (W H : Nat) (neigh : List (Int × Int))
        (rule : C → List C → C) (dflt : C) (steps : Nat) (g : List C),
        evolve W H neigh rule dflt steps g = (step W H neigh rule dflt)^[steps] g) ∧
    (∀ (C : Type) (W H : Nat) (neigh : List (Int × Int))
        (rule : C → List C → C) (dflt : C) (steps : Nat) (g₁ g₂ : List C),
        g₁ = g₂ →
        evolve W H neigh rule dflt steps g₁ = evolve W H neigh rule dflt steps g₂) := by
  constructor
  · intro C W H neigh rule dflt steps
    induction steps with
    | zero => intro g; rfl
    | succ n ih =>
        intro g
        rw [Function.iterate_succ_apply]
        exact ih (step W H neigh rule dflt g)
  · intro C W H neigh rule dflt steps g₁ g₂ h
    rw [h]

/-- C7 witness: determinism applied to a concrete two-cell Boolean grid. -/
theorem evolve_witness :
    evolve 2 1 [(1, 0)] (fun c ns => (c :: ns).foldr xor false) false 2 [true, false] =
      evolve 2 1 [(1, 0)] (fun c ns => (c :: ns).foldr xor false) false 2 [true, false] :=
  evolve_spec.2 Bool 2 1 [(1, 0)] (fun c ns => (c :: ns).foldr xor false) false 2
    [true, false] [true, false] rfl

/-- The forward-mode evaluator always produces a gradient vector with one
component per declared variable. -/
lemma evalGrad_length {α : Type} [Field α] [LinearOrder α] (ops : TransOps α)
    (vars : List String) (vals : List α) :
    ∀ (e : Expr α) (v : α) (g : List α),
      evalGrad ops vars vals e = .ok (v, g) → g.length = vars.length := by
  intro e
  induction e with
  | const c =>
      intro v g h
      simp only [evalGrad, Except.ok.injEq, Prod.mk.injEq] at h
      rw [← h.2]
      simp
  | var x =>
      intro v g h
      cases hfind : vars.findIdx? (fun v => v = x) with
      | none => simp [evalGrad, hfind] at h
      | some idx =>
          simp only [evalGrad, hfind, Except.ok.injEq, Prod.mk.injEq] at h
          rw [← h.2]
          simp
  | add f g ihf ihg =>
      intro v gr h
      cases hf : evalGrad ops vars vals f with
      | error e => simp [evalGrad, hf] at h
      | ok p =>
          obtain ⟨fv, fg⟩ := p
          cases hg : evalGrad ops vars vals g with
          | error e => simp [evalGrad, hf, hg] at h
          | ok q =>
              obtain ⟨gv, gg⟩ := q
              simp only [evalGrad, hf, hg, Except.ok.injEq, Prod.mk.injEq] at h
              rw [← h.2]
              simp [List.length_zipWith, ihf fv fg hf, ihg gv gg hg]
  | sub f g ihf ihg =>
      intro v gr h
      cases hf : evalGrad ops vars vals f with
      | error e => simp [evalGrad, hf] at h
      | ok p =>
          obtain ⟨fv, fg⟩ := p
          cases hg : evalGrad ops vars vals g with
          | error e => simp [evalGrad, hf, hg] at h
          | ok q =>
              obtain ⟨gv, gg⟩ := q
              simp only [evalGrad, hf, hg, Except.ok.injEq, Prod.mk.injEq] at h
              rw [← h.2]
              simp [List.length_zipWith, ihf fv fg hf, ihg gv gg hg]
  | mul f g ihf ihg =>
      intro v gr h
      cases hf : evalGrad ops vars vals f with
      | error e => simp [evalGrad, hf] at h
      | ok p =>
          obtain ⟨fv, fg⟩ := p
          cases hg : evalGrad ops vars vals g with
          | error e => simp [evalGrad, hf, hg] at h
          | ok q =>
              obtain ⟨gv, gg⟩ := q
              simp only [evalGrad, hf, hg, Except.ok.injEq, Prod.mk.injEq] at h
              rw [← h.2]
              simp [List.length_zipWith, ihf fv fg hf, ihg gv gg hg]
  | div f g ihf ihg =>
      intro v gr h
      cases hf : evalGrad ops vars vals f with
      | error e => simp [evalGrad, hf] at h
      | ok p =>
          obtain ⟨fv, fg⟩ := p
          cases hg : evalGrad ops vars vals g with
          | error e => simp [evalGrad, hf, hg] at h
          | ok q =>
              obtain ⟨gv, gg⟩ := q
              by_cases hz : gv = 0
              · simp [evalGrad, hf, hg, hz] at h
              · simp only [evalGrad, hf, hg, hz, if_neg, if_false,
                  Except.ok.injEq, Prod.mk.injEq] at h
                rw [← h.2]
                simp [List.length_zipWith, ihf fv fg hf, ihg gv gg hg]
  | pow f n ihf =>
      intro v gr h
      cases hf : evalGrad ops vars vals f with
      | error e => simp [evalGrad, hf] at h
      | ok p =>
          obtain ⟨fv, fg⟩ := p
          simp only [evalGrad, hf, Except.ok.injEq, Prod.mk.injEq] at h
          rw [← h.2]
          simp [ihf fv fg hf]
  | sin f ihf =>
      intro v gr h
      cases hf : evalGrad ops vars vals f with
      | error e => simp [evalGrad, hf] at h
      | ok p =>
          obtain ⟨fv, fg⟩ := p
          simp only [evalGrad, hf, Except.ok.injEq, Prod.mk.injEq] at h
          rw [← h.2]
          simp [ihf fv fg hf]
  | cos f ihf =>
      intro v gr h
      cases hf : evalGrad ops vars vals f with
      | error e => simp [evalGrad, hf] at h
      | ok p =>
          obtain ⟨fv, fg⟩ := p
          simp only [evalGrad, hf, Except.ok.injEq, Prod.mk.injEq] at h
          rw [← h.2]
          simp [ihf fv fg hf]
  | exp f ihf =>
      intro v gr h
      cases hf : evalGrad ops vars vals f with
      | error e => simp [evalGrad, hf] at h
      | ok p =>
          obtain ⟨fv, fg⟩ := p
          simp only [evalGrad, hf, Except.ok.injEq, Prod.mk.injEq] at h
          rw [← h.2]
          simp [ihf fv fg hf]
  | log f ihf =>
      intro v gr h
      cases hf : evalGrad ops vars vals f with
      | error e => simp [evalGrad, hf] at h
      | ok p =>
          obtain ⟨fv, fg⟩ := p
          by_cases hz : fv ≤ 0
          · simp [evalGrad, hf, hz] at h
          · simp only [evalGrad, hf, hz, if_neg, if_false,
              Except.ok.injEq, Prod.mk.injEq] at h
            rw [← h.2]
            simp [ihf fv fg hf]

/-- C4: the forward-mode evaluator produces the full gradient vector (one
component per declared variable) in its single bottom-up traversal, and on
`x^2 * y + sin(x)` with variables `[x, y]` at `(1, 2)` the gradient is
`[4 + cos 1, 1]`. -/
theorem compute_gradient_spec :
    (∀ {α : Type} [Field α] [LinearOrder α] (ops : TransOps α)
        (vars : List String) (vals : List α) (e : Expr α) (v : α) (g : List α),
        evalGrad ops vars vals e = .ok (v, g) → g.length = vars.length) ∧
    compute_gradient ⟨Real.sin, Real.cos, Real.exp, Real.log⟩ exampleExpr
      ["x", "y"] [1, 2] = .ok [4 + Real.cos 1, 1] := by
  constructor
  · intro α _ _ ops vars vals e v g h
    exact evalGrad_length ops vars vals e v g h
  · simp [compute_gradient, evalGrad, exampleExpr, List.findIdx?]
    norm_num [List.range_succ, Except.map]

/-- C4 witness: the full-gradient-vector property applied at the example
traversal, its hypothesis discharged by evaluation. -/
theorem compute_gradient_witness :
    ([4 + Real.cos 1, (1 : ℝ)]).length = (["x", "y"]).length :=
  compute_gradient_spec.1 ⟨Real.sin, Real.cos, Real.exp, Real.log⟩ ["x", "y"] [1, 2]
    exampleExpr (2 + Real.sin 1) [4 + Real.cos 1, 1]
    (by simp [evalGrad, exampleExpr, List.findIdx?]; norm_num [List.range_succ])

/-- The `sig3` product as a double sum with tabulated signs. -/
lemma gp_sig3_apply {α : Type} [Ring α] (a b : GeomMv sig3 α) (k : Fin 8) :
    geometric_product sig3 a b k =
      ∑ i : Fin 8, ∑ j : Fin 8,
        if i.val ^^^ j.val = k.val then (signT8 i j : α) * a i * b j else 0 := by
  have h : ∀ i j : Fin 8, bladeFactor sig3 i.val j.val = signT8 i j := by decide
  show (∑ i : Fin 8, ∑ j : Fin 8,
      if i.val ^^^ j.val = k.val then (bladeFactor sig3 i.val j.val : α) * a i * b j else 0) = _
  exact Finset.sum_congr rfl fun i _ =>
    Finset.sum_congr rfl fun j _ => by rw [h i j]

/-- Reversion over `sig3` via the tabulated signs. -/
lemma reverseMv_sig3_apply {α : Type} [Ring α] (a : GeomMv sig3 α) (k : Fin 8) :
    reverseMv sig3 a k = (revSignT8 k : α) * a k := by
  have h : ((-1 : Int)) ^ (gradeOf sig3.n k.val * (gradeOf sig3.n k.val - 1) / 2)
      = revSignT8 k := by
    revert k; decide
  calc reverseMv sig3 a k
      = (-1 : α) ^ (gradeOf sig3.n k.val * (gradeOf sig3.n k.val - 1) / 2) * a k := rfl
    _ = (((-1 : Int) ^ (gradeOf sig3.n k.val * (gradeOf sig3.n k.val - 1) / 2) : Int) : α)
          * a k := by push_cast; ring
    _ = (revSignT8 k : α) * a k := by rw [h]

set_option maxHeartbeats 1000000 in
/-- Explicit evaluation of `R ⊗ v`. -/
lemma gpRV_explicit {α : Type} [CommRing α] (c s : α) (b v : Fin 3 → α) :
    geometric_product sig3 (rotorOf c s b) (embedVec v) =
      fun k => rvFormula c s b v k := by
  have h8 : ∀ k : Fin 8,
      geometric_product sig3 (rotorOf c s b) (embedVec v) k = rvFormula c s b v k := by
    intro k
    rw [gp_sig3_apply]
    fin_cases k <;>
      (simp +decide [Fin.sum_univ_eight, signT8, rotorOf, hodgeDual3, embedVec, rvFormula]
       <;> try ring)
  funext k
  exact h8 k

set_option maxHeartbeats 1000000 in
/-- Explicit evaluation of the grade-1 part of the sandwich. -/
lemma rotApply_explicit {α : Type} [CommRing α] (c s : α) (b v : Fin 3 → α) :
    rotApply c s b v = sandFormula c s b v := by
  funext i
  fin_cases i <;>
    (simp only [rotApply]
     rw [gpRV_explicit, gp_sig3_apply]
     simp +decide [Fin.sum_univ_eight, signT8, vecMask, rvFormula,
       reverseMv_sig3_apply, revSignT8, rotorOf, hodgeDual3, sandFormula]
     <;> try ring)

set_option maxHeartbeats 1000000 in
/-- The algebraic round trip: conjugating by the rotor for `(c, s)` and then
for `(c, −s)` is the identity, given `c² + s² = 1` and a unit axis. -/
lemma rotor_roundtrip_core {α : Type} [CommRing α] (c s : α) (b v : Fin 3 → α)
    (hc : c ^ 2 + s ^ 2 = 1) (hb : b 0 ^ 2 + b 1 ^ 2 + b 2 ^ 2 = 1) :
    rotApply c (-s) b (rotApply c s b v) = v := by
  rw [rotApply_explicit, rotApply_explicit]
  funext i
  fin_cases i
  · show sandFormula c (-s) b (sandFormula c s b v) 0 = v 0
    simp only [sandFormula]
    linear_combination (b 2 * b 2 * b 2 * b 2 * v 0 + 2 * b 1 * b 1 * b 2 * b 2 * v 0 + b 1 * b 1 * b 1 * b 1 * v 0 + 2 * b 0 * b 0 * b 2 * b 2 * v 0 + 2 * b 0 * b 0 * b 1 * b 1 * v 0 + b 0 * b 0 * b 0 * b 0 * v 0 + s * s * b 2 * b 2 * b 2 * b 2 * v 0 + 2 * s * s * b 1 * b 1 * b 2 * b 2 * v 0 + s * s * b 1 * b 1 * b 1 * b 1 * v 0 + 2 * s * s * b 0 * b 0 * b 2 * b 2 * v 0 + 2 * s * s * b 0 * b 0 * b 1 * b 1 * v 0 + s * s * b 0 * b 0 * b 0 * b 0 * v 0 + 2 * c * c * b 2 * b 2 * v 0 - c * c * b 2 * b 2 * b 2 * b 2 * v 0 + 2 * c * c * b 1 * b 1 * v 0 - 2 * c * c * b 1 * b 1 * b 2 * b 2 * v 0 - c * c * b 1 * b 1 * b 1 * b 1 * v 0 + 2 * c * c * b 0 * b 0 * v 0 - 2 * c * c * b 0 * b 0 * b 2 * b 2 * v 0 - 2 * c * c * b 0 * b 0 * b 1 * b 1 * v 0 - c * c * b 0 * b 0 * b 0 * b 0 * v 0) * hc + (v 0 + b 2 * b 2 * v 0 + b 1 * b 1 * v 0 + b 0 * b 0 * v 0 - 2 * c * c * b 2 * b 2 * v 0 - 2 * c * c * b 1 * b 1 * v 0 - 2 * c * c * b 0 * b 0 * v 0 - c * c * c * c * v 0 + c * c * c * c * b 2 * b 2 * v 0 + c * c * c * c * b 1 * b 1 * v 0 + c * c * c * c * b 0 * b 0 * v 0) * hb
  · show sandFormula c (-s) b (sandFormula c s b v) 1 = v 1
    simp only [sandFormula]
    linear_combination (b 2 * b 2 * b 2 * b 2 * v 1 + 2 * b 1 * b 1 * b 2 * b 2 * v 1 + b 1 * b 1 * b 1 * b 1 * v 1 + 2 * b 0 * b 0 * b 2 * b 2 * v 1 + 2 * b 0 * b 0 * b 1 * b 1 * v 1 + b 0 * b 0 * b 0 * b 0 * v 1 + s * s * b 2 * b 2 * b 2 * b 2 * v 1 + 2 * s * s * b 1 * b 1 * b 2 * b 2 * v 1 + s * s * b 1 * b 1 * b 1 * b 1 * v 1 + 2 * s * s * b 0 * b 0 * b 2 * b 2 * v 1 + 2 * s * s * b 0 * b 0 * b 1 * b 1 * v 1 + s * s * b 0 * b 0 * b 0 * b 0 * v 1 + 2 * c * c * b 2 * b 2 * v 1 - c * c * b 2 * b 2 * b 2 * b 2 * v 1 + 2 * c * c * b 1 * b 1 * v 1 - 2 * c * c * b 1 * b 1 * b 2 * b 2 * v 1 - c * c * b 1 * b 1 * b 1 * b 1 * v 1 + 2 * c * c * b 0 * b 0 * v 1 - 2 * c * c * b 0 * b 0 * b 2 * b 2 * v 1 - 2 * c * c * b 0 * b 0 * b 1 * b 1 * v 1 - c * c * b 0 * b 0 * b 0 * b 0 * v 1) * hc + (v 1 + b 2 * b 2 * v 1 + b 1 * b 1 * v 1 + b 0 * b 0 * v 1 - 2 * c * c * b 2 * b 2 * v 1 - 2 * c * c * b 1 * b 1 * v 1 - 2 * c * c * b 0 * b 0 * v 1 - c * c * c * c * v 1 + c * c * c * c * b 2 * b 2 * v 1 + c * c * c * c * b 1 * b 1 * v 1 + c * c * c * c * b 0 * b 0 * v 1) * hb
  · show sandFormula c (-s) b (sandFormula c s b v) 2 = v 2
    simp only [sandFormula]
    linear_combination (b 2 * b 2 * b 2 * b 2 * v 2 + 2 * b 1 * b 1 * b 2 * b 2 * v 2 + b 1 * b 1 * b 1 * b 1 * v 2 + 2 * b 0 * b 0 * b 2 * b 2 * v 2 + 2 * b 0 * b 0 * b 1 * b 1 * v 2 + b 0 * b 0 * b 0 * b 0 * v 2 + s * s * b 2 * b 2 * b 2 * b 2 * v 2 + 2 * s * s * b 1 * b 1 * b 2 * b 2 * v 2 + s * s * b 1 * b 1 * b 1 * b 1 * v 2 + 2 * s * s * b 0 * b 0 * b 2 * b 2 * v 2 + 2 * s * s * b 0 * b 0 * b 1 * b 1 * v 2 + s * s * b 0 * b 0 * b 0 * b 0 * v 2 + 2 * c * c * b 2 * b 2 * v 2 - c * c * b 2 * b 2 * b 2 * b 2 * v 2 + 2 * c * c * b 1 * b 1 * v 2 - 2 * c * c * b 1 * b 1 * b 2 * b 2 * v 2 - c * c * b 1 * b 1 * b 1 * b 1 * v 2 + 2 * c * c * b 0 * b 0 * v 2 - 2 * c * c * b 0 * b 0 * b 2 * b 2 * v 2 - 2 * c * c * b 0 * b 0 * b 1 * b 1 * v 2 - c * c * b 0 * b 0 * b 0 * b 0 * v 2) * hc + (v 2 + b 2 * b 2 * v 2 + b 1 * b 1 * v 2 + b 0 * b 0 * v 2 - 2 * c * c * b 2 * b 2 * v 2 - 2 * c * c * b 1 * b 1 * v 2 - 2 * c * c * b 0 * b 0 * v 2 - c * c * c * c * v 2 + c * c * c * c * b 2 * b 2 * v 2 + c * c * c * c * b 1 * b 1 * v 2 + c * c * c * c * b 0 * b 0 * v 2) * hb

/-- C5: in the Euclidean 3-generator case, applying `rotor_rotation` with any
non-zero axis and angle θ and then with angle −θ returns the original vector;
over the reals the round trip is exact. -/
theorem rotor_roundtrip_spec (axis v : Fin 3 → ℝ) (θ : ℝ) (h : axis ≠ 0) :
    ∃ v', rotor_rotation Real.cos Real.sin Real.sqrt axis θ v = .ok v' ∧
      rotor_rotation Real.cos Real.sin Real.sqrt axis (-θ) v' = .ok v := by
  have hnz : ¬ (axis 0 = 0 ∧ axis 1 = 0 ∧ axis 2 = 0) := by
    intro hall
    apply h
    funext i
    fin_cases i
    · simpa using hall.1
    · simpa using hall.2.1
    · simpa using hall.2.2
  have hex : axis 0 ≠ 0 ∨ axis 1 ≠ 0 ∨ axis 2 ≠ 0 := by
    by_contra hc
    push_neg at hc
    exact hnz ⟨hc.1, hc.2.1, hc.2.2⟩
  have htpos : 0 < axis 0 ^ 2 + axis 1 ^ 2 + axis 2 ^ 2 := by
    have h0 := sq_nonneg (axis 0)
    have h1 := sq_nonneg (axis 1)
    have h2 := sq_nonneg (axis 2)
    rcases hex with hx | hx | hx <;>
      (have hp := sq_pos_of_ne_zero hx
       nlinarith)
  have hbunit :
      (axis 0 / Real.sqrt (axis 0 ^ 2 + axis 1 ^ 2 + axis 2 ^ 2)) ^ 2 +
      (axis 1 / Real.sqrt (axis 0 ^ 2 + axis 1 ^ 2 + axis 2 ^ 2)) ^ 2 +
      (axis 2 / Real.sqrt (axis 0 ^ 2 + axis 1 ^ 2 + axis 2 ^ 2)) ^ 2 = 1 := by
    have hsz : Real.sqrt (axis 0 ^ 2 + axis 1 ^ 2 + axis 2 ^ 2) ≠ 0 :=
      ne_of_gt (Real.sqrt_pos.mpr htpos)
    rw [div_pow, div_pow, div_pow, Real.sq_sqrt htpos.le]
    field_simp
  have hcs : Real.cos (θ / 2) ^ 2 + Real.sin (θ / 2) ^ 2 = 1 := Real.cos_sq_add_sin_sq _
  refine ⟨rotApply (Real.cos (θ / 2)) (Real.sin (θ / 2))
      (fun i => axis i / Real.sqrt (axis 0 ^ 2 + axis 1 ^ 2 + axis 2 ^ 2)) v, ?_, ?_⟩
  · simp only [rotor_rotation, if_neg hnz]
  · simp only [rotor_rotation, if_neg hnz]
    rw [neg_div, Real.cos_neg, Real.sin_neg]
    rw [rotor_roundtrip_core _ _ _ _ hcs hbunit]

/-- C5 witness: the round trip at the z-axis, angle 1, vector `e₁`; the
non-zero-axis hypothesis is discharged by evaluation. -/
theorem rotor_roundtrip_witness :
    ∃ v', rotor_rotation Real.cos Real.sin Real.sqrt ![0, 0, 1] 1 ![1, 0, 0] = .ok v' ∧
      rotor_rotation Real.cos Real.sin Real.sqrt ![0, 0, 1] (-1) v' = .ok ![1, 0, 0] :=
  rotor_roundtrip_spec ![0, 0, 1] ![1, 0, 0] 1 (by
    intro hz
    have h2 := congrFun hz 2
    simp at h2)

end Amari

